import Mathlib

/-!
Verification of the editor kernel: a shallow embedding of the line-oriented
text editor (`text_editor.py`, `commands.py`) and of the id-addressed tree
editor (`xml_editor.py`, `xml_commands.py`), together with theorems settling
the frozen claims about undo/redo reversibility, history-stack discipline,
validation atomicity and root protection.

Modelling conventions:
* A Python line (string) is a `List Char` (`Str`); a buffer is `List Str`.
* Python list mutation becomes explicit state passing; the two history
  stacks are Lean lists with the head as the top of the stack.
* Commands are a sum type carrying the snapshot fields the Python dataclass
  objects carry; `execute` returns the updated command (the snapshot the
  Python object stores into itself).
* Python `raise` becomes returning `some err` together with the state as it
  is at the moment of the raise (so atomicity is a theorem, not a given).
* The tree editor's heap of `ET.Element` objects is an arena: a map from
  numeric handles to element records; object identity is handle equality,
  matching Python `==` on `ET.Element` (which is identity).  The recursive
  walks over the live object graph (`_collect_ids`,
  `_remove_from_parent_map`, `_restore_parent_map`) are embedded by first
  linearizing the subtree reachable from a handle in visit order
  (`subtreeScan`, a fuel-charged traversal of the arena) and then folding
  the loop body over that list, exactly in the order the Python recursion
  performs its dictionary operations.
-/

set_option linter.unusedVariables false

abbrev Str := List Char

/-- `s.data` of a string literal, for readable statements. -/
def strOf (s : String) : Str := s.data

/-- Python `buf[i]` on a line buffer (total; all uses are bounds-checked
before in the source). -/
def getLine (buf : List Str) (i : Nat) : Str := buf.getD i []

/-- Python `text.split("\n")` (never empty; `"".split` is `[""]`). -/
def splitNl : Str → List Str
  | [] => [[]]
  | c :: cs =>
    let rest := splitNl cs
    if c = '\n' then [] :: rest
    else (c :: rest.headD []) :: rest.tail

/-- Python `list.insert(i, x)` (clamps `i` to the length). -/
def listInsertAt {α : Type} (l : List α) (i : Nat) (x : α) : List α :=
  l.take i ++ x :: l.drop i

/-- The loop in the multiline-insert path that inserts the interior
segments at successive positions. -/
def insertAll {α : Type} : List α → Nat → List α → List α
  | l, _, [] => l
  | l, i, x :: xs => insertAll (listInsertAt l i x) (i + 1) xs

/-- The validation failures of `TextEditor` (`TextEditorError` messages). -/
inductive TextErr where
  /-- "空文件只能在1:1位置插入" -/
  | emptyDocInvalidPos
  /-- "行号或列号越界" -/
  | outOfBounds
  /-- "删除长度超出行尾" -/
  | lengthExceedsLine
  deriving DecidableEq, Repr

/-- The command objects of `commands.py` plus the two private composite
change records of `text_editor.py`; snapshot fields as in the source. -/
inductive TextCmd where
  | insert (line col : Nat) (text : Str) (prevLine : Option Str)
  | delete (line col len : Nat) (prevLine : Option Str)
  | replace (line col len : Nat) (text : Str) (prevLine : Option Str)
  | compositeLine (lineIndex : Nat) (prevLine : Str) (prevAfterLinesCount : Nat)
  | compositeReplace (lineIndex : Nat) (prevLine : Str) (afterDeleteSnapshot : List Str)
  deriving DecidableEq, Repr

/-- `Command.execute` on a buffer: the new buffer and the command with its
snapshot field filled in (the composite records' `execute` is `pass`). -/
def TextCmd.executeCmd : TextCmd → List Str → List Str × TextCmd
  | .insert line col text _, buf =>
    let idx := line - 1
    let pos := col - 1
    let cur := getLine buf idx
    (buf.set idx (cur.take pos ++ text ++ cur.drop pos), .insert line col text (some cur))
  | .delete line col len _, buf =>
    let idx := line - 1
    let pos := col - 1
    let cur := getLine buf idx
    (buf.set idx (cur.take pos ++ cur.drop (pos + len)), .delete line col len (some cur))
  | .replace line col len text _, buf =>
    let idx := line - 1
    let pos := col - 1
    let cur := getLine buf idx
    (buf.set idx (cur.take pos ++ text ++ cur.drop (pos + len)), .replace line col len text (some cur))
  | c@(.compositeLine ..), buf => (buf, c)
  | c@(.compositeReplace ..), buf => (buf, c)

/-- The pop loop of `_CompositeLineChange.undo`. -/
def popLoop (idx : Nat) : List Str → Nat → List Str
  | buf, 0 => buf
  | buf, n + 1 => popLoop idx (if idx + 1 < buf.length then buf.eraseIdx (idx + 1) else buf) n

/-- `Command.undo` on a buffer. -/
def TextCmd.undoCmd : TextCmd → List Str → List Str
  | .insert line _ _ prev, buf =>
    match prev with
    | some p => buf.set (line - 1) p
    | none => buf
  | .delete line _ _ prev, buf =>
    match prev with
    | some p => buf.set (line - 1) p
    | none => buf
  | .replace line _ _ _ prev, buf =>
    match prev with
    | some p => buf.set (line - 1) p
    | none => buf
  | .compositeLine idx prev cnt, buf => (popLoop idx buf cnt).set idx prev
  | .compositeReplace idx prev snap, buf =>
    if idx < snap.length then snap.set idx prev else snap

/-- The text document: line buffer plus the two history stacks
(`_undo_stack`, `_redo_stack`; head of list = top of stack). -/
structure TextEditor where
  lines : List Str
  undoStack : List TextCmd
  redoStack : List TextCmd
  modified : Bool
  deriving DecidableEq, Repr

/-- A freshly loaded document over the given lines. -/
def mkText (ls : List Str) : TextEditor := ⟨ls, [], [], false⟩

/-- `TextEditor._ensure_position`. -/
def ensurePosition (lines : List Str) (line col : Nat) : Option TextErr :=
  if line < 1 ∨ (lines.length = 0 ∧ ¬(line = 1 ∧ col = 1)) then some .emptyDocInvalidPos
  else if line > lines.length then some .outOfBounds
  else if col < 1 then some .outOfBounds
  else if col - 1 > (if lines.isEmpty then 0 else (getLine lines (line - 1)).length) then
    some .outOfBounds
  else none

/-- `TextEditor._push_command`: execute, push, clear redo, mark modified. -/
def TextEditor.pushCommand (ed : TextEditor) (cmd : TextCmd) : TextEditor :=
  let r := cmd.executeCmd ed.lines
  { ed with lines := r.1, undoStack := r.2 :: ed.undoStack, redoStack := [], modified := true }

/-- `TextEditor.insert`. -/
def TextEditor.insertOp (ed : TextEditor) (line col : Nat) (text : Str) :
    TextEditor × Option TextErr :=
  let parts := splitNl text
  -- `if not self.lines:` — empty document accepts only (1,1), seeding `[""]`
  if ed.lines.isEmpty ∧ ¬(line = 1 ∧ col = 1) then (ed, some .emptyDocInvalidPos)
  else
    let ed1 := if ed.lines.isEmpty then { ed with lines := [[]] } else ed
    match ensurePosition ed1.lines line col with
    | some e => (ed1, some e)
    | none =>
      if parts.length = 1 then
        (ed1.pushCommand (.insert line col (parts.headD []) none), none)
      else
        let idx := line - 1
        let pos := col - 1
        let original := getLine ed1.lines idx
        let after := original.drop pos
        let cmd1 := TextCmd.replace line col (original.length - pos) (parts.headD []) none
        let buf1 := (cmd1.executeCmd ed1.lines).1
        let mids := (parts.drop 1).dropLast
        let buf2 := insertAll buf1 (idx + 1) mids
        let buf3 :=
          if parts.getLastD [] ≠ [] ∨ after ≠ [] then
            listInsertAt buf2 (idx + 1 + mids.length) (parts.getLastD [] ++ after)
          else buf2
        ({ ed1 with
            lines := buf3,
            undoStack := .compositeLine idx original (parts.length - 1) :: ed1.undoStack,
            redoStack := [],
            modified := true }, none)

/-- `TextEditor.delete`. -/
def TextEditor.deleteOp (ed : TextEditor) (line col len : Nat) :
    TextEditor × Option TextErr :=
  if ed.lines.isEmpty then (ed, some .outOfBounds)
  else
    match ensurePosition ed.lines line col with
    | some e => (ed, some e)
    | none =>
      let idx := line - 1
      let pos0 := col - 1
      let leftover := (getLine ed.lines idx).length - pos0
      if len > leftover then (ed, some .lengthExceedsLine)
      else (ed.pushCommand (.delete line col len none), none)

/-- `TextEditor.replace`. -/
def TextEditor.replaceOp (ed : TextEditor) (line col len : Nat) (text : Str) :
    TextEditor × Option TextErr :=
  if ed.lines.isEmpty then (ed, some .outOfBounds)
  else
    match ensurePosition ed.lines line col with
    | some e => (ed, some e)
    | none =>
      let idx := line - 1
      let pos0 := col - 1
      let leftover := (getLine ed.lines idx).length - pos0
      if len > leftover then (ed, some .lengthExceedsLine)
      else if ('\n' : Char) ∈ text then
        -- delete the range (command executed but not pushed), then multiline insert,
        -- then push the composite replace record on top
        let prevLine := getLine ed.lines idx
        let delCmd := TextCmd.delete line col len none
        let ed1 := { ed with lines := (delCmd.executeCmd ed.lines).1 }
        let afterDel := ed1.lines
        let r := ed1.insertOp line col text
        match r.2 with
        | some e => (r.1, some e)
        | none =>
          ({ r.1 with undoStack := .compositeReplace idx prevLine afterDel :: r.1.undoStack },
           none)
      else (ed.pushCommand (.replace line col len text none), none)

/-- `TextEditor.append`: net effect of the append/pop dance is appending an
empty line, then inserting at (lastLine+1, 1). -/
def TextEditor.appendOp (ed : TextEditor) (text : Str) : TextEditor × Option TextErr :=
  let newLineIndex := ed.lines.length + 1
  let ed1 := { ed with lines := ed.lines ++ [[]], modified := true, redoStack := [] }
  ed1.insertOp newLineIndex 1 text

/-- `TextEditor.undo`. -/
def TextEditor.undoOp (ed : TextEditor) : TextEditor × Bool :=
  match ed.undoStack with
  | [] => (ed, false)
  | cmd :: rest =>
    ({ ed with
        lines := cmd.undoCmd ed.lines,
        undoStack := rest,
        redoStack := cmd :: ed.redoStack,
        modified := true }, true)

/-- `TextEditor.redo`. -/
def TextEditor.redoOp (ed : TextEditor) : TextEditor × Bool :=
  match ed.redoStack with
  | [] => (ed, false)
  | cmd :: rest =>
    let r := cmd.executeCmd ed.lines
    ({ ed with
        lines := r.1,
        redoStack := rest,
        undoStack := r.2 :: ed.undoStack,
        modified := true }, true)

/-! ### The tree editor (`xml_editor.py`, `xml_commands.py`) -/

/-- Python dict lookup on an association list. -/
def alookup {K V : Type} [DecidableEq K] : List (K × V) → K → Option V
  | [], _ => none
  | p :: ps, k => if p.1 = k then some p.2 else alookup ps k

/-- Python `d[k] = v`: overwrite in place if present, else append. -/
def dset {K V : Type} [DecidableEq K] : List (K × V) → K → V → List (K × V)
  | [], k, v => [(k, v)]
  | p :: ps, k, v => if p.1 = k then (k, v) :: ps else p :: dset ps k v

/-- Python `del d[k]` (total: no-op when absent; all uses are guarded). -/
def ddel {K V : Type} [DecidableEq K] : List (K × V) → K → List (K × V)
  | [], _ => []
  | p :: ps, k => if p.1 = k then ddel ps k else p :: ddel ps k

/-- Python `list.index(x)` (first occurrence; total, length when absent). -/
def idxOf : List Nat → Nat → Nat
  | [], _ => 0
  | a :: l, x => if a = x then 0 else idxOf l x + 1

/-- Python `list.remove(x)` (first occurrence; no-op when absent, which also
covers the `try/except ValueError: pass` call site). -/
def eraseFirst : List Nat → Nat → List Nat
  | [], _ => []
  | a :: l, x => if a = x then l else a :: eraseFirst l x

/-- An `ET.Element`: tag, `id` attribute (`""` plays the role of a missing /
falsy id), optional trailing text, and the ordered child handles. -/
structure XElem where
  tag : String
  idAttr : String
  text : Option String
  children : List Nat
  deriving DecidableEq, Repr, Inhabited

/-- The tree document state: the arena of element objects (handle-keyed, the
model of the Python heap, where element identity is handle equality), the
root's handle, and the two derived indexes `id_map` and `parent_map`. -/
structure XmlState where
  nodes : List (Nat × XElem)
  rootH : Nat
  idMap : List (String × Nat)
  parentMap : List (Nat × Nat)
  fresh : Nat
  deriving DecidableEq, Repr

/-- The linearization of the Python recursions over the live subtree of a
handle (`_collect_ids`, `_remove_from_parent_map`, `_restore_parent_map` all
visit the node first and then its children left to right).  The worklist
holds `(handle, parentHandle)` pairs; the result lists `(handle, element,
parentHandle)` in exactly the visit order.  Fuel is an embedding artifact
(Python recursion just terminates on the acyclic heap); one unit is charged
per step, and the operations pass `nodes.length + 1`. -/
def subtreeScan (st : XmlState) : Nat → List (Nat × Nat) → Option (List (Nat × XElem × Nat))
  | _, [] => some []
  | 0, _ :: _ => none
  | fuel + 1, (h, par) :: rest =>
    match alookup st.nodes h with
    | none => none
    | some e =>
      match subtreeScan st fuel (e.children.map (fun c => (c, h))) with
      | none => none
      | some sub =>
        match subtreeScan st fuel rest with
        | none => none
        | some rts => some ((h, e, par) :: sub ++ rts)

/-- The body of `_collect_ids` over the scan linearization: dict-insert each
non-falsy id in visit order. -/
def collectAcc : List (Nat × XElem × Nat) → List (String × Nat) → List (String × Nat)
  | [], acc => acc
  | x :: xs, acc =>
    collectAcc xs (if x.2.1.idAttr ≠ "" then dset acc x.2.1.idAttr x.1 else acc)

/-- The loop `for eid in self._deleted_subtree_ids: del self.id_map[eid]`. -/
def delKeys : List (String × Nat) → List (String × Nat) → List (String × Nat)
  | [], m => m
  | kv :: kvs, m => delKeys kvs (ddel m kv.1)

/-- `self.id_map.update(self._deleted_subtree_ids)` (dict update, in
insertion order of the stored dict). -/
def updKeys : List (String × Nat) → List (String × Nat) → List (String × Nat)
  | [], m => m
  | kv :: kvs, m => updKeys kvs (dset m kv.1 kv.2)

/-- `_remove_from_parent_map` over the scan linearization (with the
`if element in self.parent_map` guard). -/
def removePM : List (Nat × XElem × Nat) → List (Nat × Nat) → List (Nat × Nat)
  | [], pm => pm
  | x :: xs, pm => removePM xs (if (alookup pm x.1).isSome then ddel pm x.1 else pm)

/-- `_restore_parent_map` over the scan linearization:
`parent_map[element] = parent` in visit order. -/
def restorePM : List (Nat × XElem × Nat) → List (Nat × Nat) → List (Nat × Nat)
  | [], pm => pm
  | x :: xs, pm => restorePM xs (dset pm x.1 x.2.2)

/-- The snapshot fields `XmlDeleteCommand` stores at `execute` time. -/
structure XDeleteSnap where
  elem : Nat
  parent : Nat
  index : Nat
  subtreeIds : List (String × Nat)
  deriving DecidableEq, Repr

/-- The command objects of `xml_commands.py` with their snapshot fields. -/
inductive XCmd where
  | insertBefore (tag newId targetId text : String) (created : Option Nat)
  | appendChild (tag newId parentId text : String) (created : Option Nat)
  | editId (oldId newId : String) (elem : Option Nat)
  | editText (elementId newText : String) (oldText : Option String)
  | delete (elementId : String) (snap : Option XDeleteSnap)
  deriving DecidableEq, Repr

/-- `execute()` of each command on the tree state; returns the new state and
the command with its snapshot filled in.  Lookups that would raise `KeyError`
in Python are unreachable after the editor's validation; the embedding
returns the state unchanged there. -/
def XCmd.executeX : XCmd → XmlState → XmlState × XCmd
  | c@(.insertBefore tag newId targetId text _), st =>
    match alookup st.idMap targetId with
    | none => (st, c)
    | some tgt =>
      match alookup st.parentMap tgt with
      | none => (st, c)
      | some par =>
        match alookup st.nodes par with
        | none => (st, c)
        | some pe =>
          let h := st.fresh
          let e : XElem := ⟨tag, newId, if text = "" then none else some text, []⟩
          let index := idxOf pe.children tgt
          ({ st with
              nodes := dset (dset st.nodes par
                { pe with children := listInsertAt pe.children index h }) h e,
              idMap := dset st.idMap newId h,
              parentMap := dset st.parentMap h par,
              fresh := st.fresh + 1 },
           .insertBefore tag newId targetId text (some h))
  | c@(.appendChild tag newId parentId text _), st =>
    match alookup st.idMap parentId with
    | none => (st, c)
    | some par =>
      match alookup st.nodes par with
      | none => (st, c)
      | some pe =>
        let h := st.fresh
        let e : XElem := ⟨tag, newId, if text = "" then none else some text, []⟩
        ({ st with
            nodes := dset (dset st.nodes par
              { pe with children := pe.children ++ [h] }) h e,
            idMap := dset st.idMap newId h,
            parentMap := dset st.parentMap h par,
            fresh := st.fresh + 1 },
         .appendChild tag newId parentId text (some h))
  | c@(.editId oldId newId _), st =>
    match alookup st.idMap oldId with
    | none => (st, c)
    | some h =>
      match alookup st.nodes h with
      | none => (st, c)
      | some e =>
        ({ st with
            nodes := dset st.nodes h { e with idAttr := newId },
            idMap := dset (ddel st.idMap oldId) newId h },
         .editId oldId newId (some h))
  | c@(.editText elementId newText _), st =>
    match alookup st.idMap elementId with
    | none => (st, c)
    | some h =>
      match alookup st.nodes h with
      | none => (st, c)
      | some e =>
        ({ st with
            nodes := dset st.nodes h
              { e with text := if newText = "" then none else some newText } },
         .editText elementId newText e.text)
  | c@(.delete elementId _), st =>
    match alookup st.idMap elementId with
    | none => (st, c)
    | some h =>
      match alookup st.parentMap h with
      | none => (st, c)
      | some par =>
        match alookup st.nodes par with
        | none => (st, c)
        | some pe =>
          match subtreeScan st (st.nodes.length + 1) [(h, par)] with
          | none => (st, c)
          | some sc =>
            let index := idxOf pe.children h
            let collected := collectAcc sc []
            ({ st with
                nodes := dset st.nodes par { pe with children := eraseFirst pe.children h },
                idMap := delKeys collected st.idMap,
                parentMap := removePM sc (ddel st.parentMap h) },
             .delete elementId (some ⟨h, par, index, collected⟩))

/-- `undo()` of each command on the tree state. -/
def XCmd.undoX : XCmd → XmlState → XmlState
  | .insertBefore _ newId _ _ (some h), st =>
    (match alookup st.parentMap h with
     | none => st
     | some par =>
       match alookup st.nodes par with
       | none => st
       | some pe =>
         { st with
            nodes := dset st.nodes par { pe with children := eraseFirst pe.children h },
            idMap := ddel st.idMap newId,
            parentMap := ddel st.parentMap h })
  | .insertBefore _ _ _ _ none, st => st
  | .appendChild _ newId _ _ (some h), st =>
    (match alookup st.parentMap h with
     | none => st
     | some par =>
       match alookup st.nodes par with
       | none => st
       | some pe =>
         { st with
            nodes := dset st.nodes par { pe with children := eraseFirst pe.children h },
            idMap := ddel st.idMap newId,
            parentMap := ddel st.parentMap h })
  | .appendChild _ _ _ _ none, st => st
  | .editId oldId newId (some h), st =>
    (match alookup st.nodes h with
     | none => st
     | some e =>
       { st with
          nodes := dset st.nodes h { e with idAttr := oldId },
          idMap := dset (ddel st.idMap newId) oldId h })
  | .editId _ _ none, st => st
  | .editText elementId _ old, st =>
    (match alookup st.idMap elementId with
     | none => st
     | some h =>
       match alookup st.nodes h with
       | none => st
       | some e => { st with nodes := dset st.nodes h { e with text := old } })
  | .delete _ (some snap), st =>
    (match alookup st.nodes snap.parent with
     | none => st
     | some pe =>
       let st1 := { st with
          nodes := dset st.nodes snap.parent
            { pe with children := listInsertAt pe.children snap.index snap.elem },
          idMap := updKeys snap.subtreeIds st.idMap }
       match subtreeScan st1 (st1.nodes.length + 1) [(snap.elem, snap.parent)] with
       | none => st1
       | some sc =>
         { st1 with parentMap := restorePM sc st.parentMap })
  | .delete _ none, st => st

/-- The validation failures of `XmlEditor` (`XmlEditorError` messages). -/
inductive XmlErr where
  /-- "元素ID已存在" / "目标ID已存在" -/
  | duplicateId
  /-- "目标元素不存在" / "父元素不存在" / "元素不存在" -/
  | unknownId
  /-- "不能在根元素前插入元素" / "不建议修改根元素ID" / "不能删除根元素" -/
  | rootProtected
  deriving DecidableEq, Repr

/-- The tree document with its history stacks. -/
structure XmlEditor where
  st : XmlState
  undoStack : List XCmd
  redoStack : List XCmd
  modified : Bool
  deriving DecidableEq, Repr

/-- `XmlEditor._push_command`: execute, push, clear redo, mark modified. -/
def XmlEditor.pushCommandX (ed : XmlEditor) (cmd : XCmd) : XmlEditor :=
  let r := cmd.executeX ed.st
  { ed with st := r.1, undoStack := r.2 :: ed.undoStack, redoStack := [], modified := true }

/-- `XmlEditor.insert_before`. -/
def XmlEditor.insertBeforeOp (ed : XmlEditor) (tag newId targetId text : String) :
    XmlEditor × Option XmlErr :=
  if (alookup ed.st.idMap newId).isSome then (ed, some .duplicateId)
  else
    match alookup ed.st.idMap targetId with
    | none => (ed, some .unknownId)
    | some tgt =>
      if tgt = ed.st.rootH then (ed, some .rootProtected)
      else (ed.pushCommandX (.insertBefore tag newId targetId text none), none)

/-- `XmlEditor.append_child`. -/
def XmlEditor.appendChildOp (ed : XmlEditor) (tag newId parentId text : String) :
    XmlEditor × Option XmlErr :=
  if (alookup ed.st.idMap newId).isSome then (ed, some .duplicateId)
  else
    match alookup ed.st.idMap parentId with
    | none => (ed, some .unknownId)
    | some _ => (ed.pushCommandX (.appendChild tag newId parentId text none), none)

/-- `XmlEditor.edit_id`. -/
def XmlEditor.editIdOp (ed : XmlEditor) (oldId newId : String) :
    XmlEditor × Option XmlErr :=
  match alookup ed.st.idMap oldId with
  | none => (ed, some .unknownId)
  | some h =>
    if (alookup ed.st.idMap newId).isSome then (ed, some .duplicateId)
    else if h = ed.st.rootH then (ed, some .rootProtected)
    else (ed.pushCommandX (.editId oldId newId none), none)

/-- `XmlEditor.edit_text`. -/
def XmlEditor.editTextOp (ed : XmlEditor) (elementId newText : String) :
    XmlEditor × Option XmlErr :=
  match alookup ed.st.idMap elementId with
  | none => (ed, some .unknownId)
  | some _ => (ed.pushCommandX (.editText elementId newText none), none)

/-- `XmlEditor.delete`. -/
def XmlEditor.deleteOpX (ed : XmlEditor) (elementId : String) :
    XmlEditor × Option XmlErr :=
  match alookup ed.st.idMap elementId with
  | none => (ed, some .unknownId)
  | some h =>
    if h = ed.st.rootH then (ed, some .rootProtected)
    else (ed.pushCommandX (.delete elementId none), none)

/-- `XmlEditor.undo`. -/
def XmlEditor.undoOpX (ed : XmlEditor) : XmlEditor × Bool :=
  match ed.undoStack with
  | [] => (ed, false)
  | cmd :: rest =>
    ({ ed with
        st := cmd.undoX ed.st,
        undoStack := rest,
        redoStack := cmd :: ed.redoStack,
        modified := true }, true)

/-- `XmlEditor.redo`. -/
def XmlEditor.redoOpX (ed : XmlEditor) : XmlEditor × Bool :=
  match ed.redoStack with
  | [] => (ed, false)
  | cmd :: rest =>
    let r := cmd.executeX ed.st
    ({ ed with
        st := r.1,
        redoStack := rest,
        undoStack := r.2 :: ed.undoStack,
        modified := true }, true)

/-- `XmlEditor.init_new`: a single default root `<root id="root"/>` with the
indexes built by `_build_maps`. -/
def xmlInit : XmlEditor :=
  { st := { nodes := [(0, ⟨"root", "root", none, []⟩)], rootH := 0,
            idMap := [("root", 0)], parentMap := [], fresh := 1 },
    undoStack := [], redoStack := [], modified := true }

/-- Keys of a list with unique keys (the invariant of every Python dict). -/
def NodupKeys {K V : Type} (m : List (K × V)) : Prop := (m.map Prod.fst).Nodup

/-- The spec's tree scenario: a default root, then `appendChild("item","a","root")`,
then `appendChild("item","b","root")`. -/
def xmlScenario : XmlEditor :=
  ((xmlInit.appendChildOp "item" "a" "root" "").1.appendChildOp "item" "b" "root" "").1

/-! ## Theorems -/

-- sanity examples (traces of the Python semantics)
example : ((mkText []).insertOp 1 1 (strOf "x")).1.lines = [strOf "x"] := by decide

example : ((mkText [strOf "x"]).insertOp 1 1 (strOf "a\nb\nc")).1.lines
    = [strOf "a", strOf "b", strOf "cx"] := by decide

example : ((mkText [strOf "abc"]).deleteOp 1 1 2).1.lines = [strOf "c"] := by decide

example : ((mkText [strOf "abc"]).deleteOp 1 1 5).2 = some .lengthExceedsLine := by decide

example : ((mkText []).appendOp (strOf "x")).1.lines = [strOf "x"] := by decide

/-- `_ensure_position` raises only the position errors, never the length one. -/
theorem ensurePosition_ne_lengthExceeds (ls : List Str) (l c : Nat) :
    ensurePosition ls l c ≠ some .lengthExceedsLine := by
  unfold ensurePosition
  split_ifs <;> simp

/-- What a successful `_ensure_position` guarantees. -/
theorem ensurePosition_none (ls : List Str) (l c : Nat)
    (h : ensurePosition ls l c = none) :
    1 ≤ l ∧ l ≤ ls.length ∧ 1 ≤ c ∧ c - 1 ≤ (getLine ls (l - 1)).length := by
  unfold ensurePosition at h
  simp only [List.isEmpty_iff_length_eq_zero] at h
  split_ifs at h with h1 h2 h3 h4 h5
  all_goals push_neg at h1
  · omega
  · exact ⟨by omega, by omega, by omega, by omega⟩

theorem getD_set_self {α : Type} (l : List α) (i : Nat) (a d : α) (h : i < l.length) :
    (l.set i a).getD i d = a := by
  induction l generalizing i with
  | nil => simp at h
  | cons x xs ih =>
    cases i with
    | zero => rfl
    | succ i' => simpa using ih i' (by simpa using h)

theorem getD_set_ne {α : Type} (l : List α) (i j : Nat) (a d : α) (h : j ≠ i) :
    (l.set i a).getD j d = l.getD j d := by
  induction l generalizing i j with
  | nil => simp
  | cons x xs ih =>
    cases i with
    | zero => cases j with
      | zero => exact absurd rfl h
      | succ j' => rfl
    | succ i' => cases j with
      | zero => rfl
      | succ j' => simpa using ih i' j' (by omega)

/-- C1: the claim `undo(execute(D, C)) == D` fails on the code.  Counter-run:
on the empty document, `append("x")` succeeds (it first appends an empty line
outside any command, then fills it through an insert command), and `undo` only
restores the filled line to `""`, leaving `[""]` — not the original zero-line
document `[]`. -/
theorem C1_append_undo_not_inverse :
    ((mkText []).appendOp (strOf "x")).2 = none
    ∧ ((mkText []).appendOp (strOf "x")).1.lines = [strOf "x"]
    ∧ (((mkText []).appendOp (strOf "x")).1.undoOp).1.lines = [[]]
    ∧ ([([] : Str)] : List Str) ≠ (mkText []).lines := by decide

/-- C2: the claim `redo(undo(execute(D, C))) == execute(D, C)` fails on the
code for composite commands: `_CompositeLineChange.execute` is `pass`, so after
undoing the multiline insert of `"a\nb\nc"` into `["x"]` (which produced
`["a", "b", "cx"]`), `redo` reports success but leaves the buffer at `["x"]`. -/
theorem C2_redo_of_composite_is_noop :
    ((mkText [strOf "x"]).insertOp 1 1 (strOf "a\nb\nc")).1.lines
      = [strOf "a", strOf "b", strOf "cx"]
    ∧ ((((mkText [strOf "x"]).insertOp 1 1 (strOf "a\nb\nc")).1.undoOp).1.redoOp).2 = true
    ∧ ((((mkText [strOf "x"]).insertOp 1 1 (strOf "a\nb\nc")).1.undoOp).1.redoOp).1.lines
      = [strOf "x"]
    ∧ [strOf "x"] ≠ [strOf "a", strOf "b", strOf "cx"] := by decide

/-- C3: the claim that every successful mutating operation pushes exactly one
command fails on the code: a replace whose text embeds a newline is implemented
as delete + multiline insert, and the inner insert pushes its own
`_CompositeLineChange` before the outer `_CompositeReplaceChange` is pushed —
two independently-undoable entries for one call. -/
theorem C3_multiline_replace_pushes_two :
    ((mkText [strOf "x"]).replaceOp 1 1 1 (strOf "a\nb")).2 = none
    ∧ ((mkText [strOf "x"]).replaceOp 1 1 1 (strOf "a\nb")).1.undoStack.length = 2
    ∧ (mkText [strOf "x"]).undoStack.length = 0 := by decide

/-- C4: the claim that a multiline insert with `n` newlines inserts exactly
`n` new lines and that its undo restores the buffer fails on the code: the
last segment is only inserted when `parts[-1] + suffix` is non-empty, so
inserting `"a\n"` (one newline) at `(1,2)` into `["x", "y"]` inserts zero new
lines, while the composite still records one inserted line — its undo then
deletes the pre-existing line `"y"`. -/
theorem C4_trailing_newline_insert_miscounts :
    ((mkText [strOf "x", strOf "y"]).insertOp 1 2 (strOf "a\n")).2 = none
    ∧ ((mkText [strOf "x", strOf "y"]).insertOp 1 2 (strOf "a\n")).1.lines
      = [strOf "xa", strOf "y"]
    ∧ ((((mkText [strOf "x", strOf "y"]).insertOp 1 2 (strOf "a\n")).1.undoOp).1).lines
      = [strOf "x"] := by decide

/-- C8: on an empty (zero-line) text document, insert accepts exactly the
position (1,1): it succeeds there (seeding the first line, so inserting "x"
produces ["x"]), and at every other position it fails with
`EmptyDocumentInvalidPosition`, leaving the editor untouched. -/
theorem C8_empty_document_seed_insert (ed : TextEditor) (line col : Nat) (text : Str)
    (h : ed.lines = []) :
    ((ed.insertOp line col text).2 = none ↔ (line = 1 ∧ col = 1))
    ∧ (¬(line = 1 ∧ col = 1) →
        ed.insertOp line col text = (ed, some .emptyDocInvalidPos))
    ∧ (ed.insertOp 1 1 (strOf "x")).1.lines = [strOf "x"] := by
  obtain ⟨ls, us, rs, m⟩ := ed
  simp only [mkText] at h ⊢
  subst h
  refine ⟨?_, ?_, ?_⟩
  · by_cases hc : line = 1 ∧ col = 1
    · obtain ⟨h1, h2⟩ := hc
      subst h1; subst h2
      by_cases hp : (splitNl text).length = 1 <;>
        simp [TextEditor.insertOp, ensurePosition, hp]
    · simp [TextEditor.insertOp, hc]
  · intro hc
    simp [TextEditor.insertOp, hc]
  · rfl

/-- C8 witness: inserting "x" at (1,1) into `[]` succeeds producing ["x"];
inserting at (1,2) into `[]` fails with `EmptyDocumentInvalidPosition`. -/
theorem C8_empty_document_seed_insert_witness :
    (mkText []).lines = []
    ∧ ((mkText []).insertOp 1 1 (strOf "x")).2 = none
    ∧ ((mkText []).insertOp 1 1 (strOf "x")).1.lines = [strOf "x"]
    ∧ (mkText []).insertOp 1 2 (strOf "x") = (mkText [], some .emptyDocInvalidPos) := by
  have h := C8_empty_document_seed_insert (mkText []) 1 2 (strOf "x") rfl
  have h' := C8_empty_document_seed_insert (mkText []) 1 1 (strOf "x") rfl
  exact ⟨rfl, h'.1.mpr ⟨rfl, rfl⟩, h'.2.2, h.2.1 (by decide)⟩

/-- Case analysis of `TextEditor.delete`: the four paths of the source. -/
theorem deleteOp_spec (ed : TextEditor) (line col len : Nat) :
    (ed.lines.isEmpty = true ∧ ed.deleteOp line col len = (ed, some .outOfBounds))
    ∨ (∃ e, ed.lines.isEmpty = false ∧ ensurePosition ed.lines line col = some e
        ∧ ed.deleteOp line col len = (ed, some e))
    ∨ (ed.lines.isEmpty = false ∧ ensurePosition ed.lines line col = none
        ∧ (getLine ed.lines (line - 1)).length - (col - 1) < len
        ∧ ed.deleteOp line col len = (ed, some .lengthExceedsLine))
    ∨ (ed.lines.isEmpty = false ∧ ensurePosition ed.lines line col = none
        ∧ len ≤ (getLine ed.lines (line - 1)).length - (col - 1)
        ∧ ed.deleteOp line col len
            = (ed.pushCommand (.delete line col len none), none)) := by
  by_cases hemp : ed.lines.isEmpty
  · exact Or.inl ⟨hemp, by simp [TextEditor.deleteOp, hemp]⟩
  · have hemp' : ed.lines.isEmpty = false := by simpa using hemp
    cases he : ensurePosition ed.lines line col with
    | some e =>
      exact Or.inr (Or.inl ⟨e, hemp', rfl, by simp [TextEditor.deleteOp, hemp', he]⟩)
    | none =>
      by_cases hl : (getLine ed.lines (line - 1)).length - (col - 1) < len
      · exact Or.inr (Or.inr (Or.inl ⟨hemp', rfl,
          hl, by simp [TextEditor.deleteOp, hemp', he, hl]⟩))
      · exact Or.inr (Or.inr (Or.inr ⟨hemp', rfl, by omega,
          by simp [TextEditor.deleteOp, hemp', he, hl]⟩))

/-- C9: `delete(pos, length)` fails with `LengthExceedsLine` exactly when
`length` exceeds the remaining characters from the column to the end of the
addressed line; any failure leaves the editor unchanged, and on success it
removes exactly `length` characters from that one line — the line count is
preserved and every other line is untouched (deletion never spans lines). -/
theorem C9_delete_length_semantics (ed : TextEditor) (line col len : Nat) :
    ((ed.deleteOp line col len).2 = some .lengthExceedsLine ↔
      (ed.lines ≠ [] ∧ ensurePosition ed.lines line col = none
        ∧ (getLine ed.lines (line - 1)).length - (col - 1) < len))
    ∧ ((ed.deleteOp line col len).2.isSome → (ed.deleteOp line col len).1 = ed)
    ∧ ((ed.deleteOp line col len).2 = none →
        (ed.deleteOp line col len).1.lines
            = ed.lines.set (line - 1)
                ((getLine ed.lines (line - 1)).take (col - 1)
                  ++ (getLine ed.lines (line - 1)).drop (col - 1 + len))
        ∧ (getLine (ed.deleteOp line col len).1.lines (line - 1)).length + len
            = (getLine ed.lines (line - 1)).length
        ∧ (ed.deleteOp line col len).1.lines.length = ed.lines.length
        ∧ ∀ j, j ≠ line - 1 →
            getLine (ed.deleteOp line col len).1.lines j = getLine ed.lines j) := by
  rcases deleteOp_spec ed line col len with
    ⟨hemp, hd⟩ | ⟨e, hemp, he, hd⟩ | ⟨hemp, he, hl, hd⟩ | ⟨hemp, he, hl, hd⟩
  · have hnil : ed.lines = [] := by simpa using hemp
    simp [hd, hnil]
  · have hne : ed.lines ≠ [] := by simpa using hemp
    have hnel : e ≠ .lengthExceedsLine := by
      intro hcon
      exact ensurePosition_ne_lengthExceeds ed.lines line col (hcon ▸ he)
    simp [hd, he, hnel]
  · have hne : ed.lines ≠ [] := by simpa using hemp
    simp [hd, he, hl, hne]
  · have hne : ed.lines ≠ [] := by simpa using hemp
    obtain ⟨hl1, hl2, hc1, hc4⟩ := ensurePosition_none _ _ _ he
    have hidx : line - 1 < ed.lines.length := by omega
    refine ⟨by simp [hd, he]; omega, by simp [hd], fun _ => ⟨?_, ?_, ?_, ?_⟩⟩
    · rw [hd]; rfl
    · rw [hd]
      show (getLine (ed.lines.set (line - 1) _) (line - 1)).length + len = _
      unfold getLine
      unfold getLine at hc4 hl
      rw [getD_set_self _ _ _ _ hidx]
      simp only [List.length_append, List.length_take, List.length_drop]
      omega
    · rw [hd]
      show (ed.lines.set (line - 1) _).length = _
      simp
    · intro j hj
      rw [hd]
      show getLine (ed.lines.set (line - 1) _) j = _
      unfold getLine
      exact getD_set_ne _ _ _ _ _ hj

/-- C9 witness: `delete((1,1), 2)` on `["abc"]` yields `["c"]`;
`delete((1,1), 5)` on `["abc"]` fails with `LengthExceedsLine` and the
buffer (indeed the whole editor) is unchanged. -/
theorem C9_delete_length_semantics_witness :
    ((mkText [strOf "abc"]).deleteOp 1 1 2).1.lines = [strOf "c"]
    ∧ ((mkText [strOf "abc"]).deleteOp 1 1 5).2 = some .lengthExceedsLine
    ∧ ((mkText [strOf "abc"]).deleteOp 1 1 5).1 = mkText [strOf "abc"] := by
  have h2 := C9_delete_length_semantics (mkText [strOf "abc"]) 1 1 2
  have h5 := C9_delete_length_semantics (mkText [strOf "abc"]) 1 1 5
  refine ⟨?_, ?_, ?_⟩
  · rw [(h2.2.2 (by decide)).1]; decide
  · exact h5.1.mpr (by decide)
  · exact h5.2.1 (by rw [h5.1.mpr (by decide)]; rfl)

/-- A validated insert on a non-empty buffer always succeeds, leaves an empty
redo stack and pushes exactly one command. -/
theorem insertOp_success (ed : TextEditor) (line col : Nat) (text : Str)
    (h1 : ed.lines.isEmpty = false) (h2 : ensurePosition ed.lines line col = none) :
    (ed.insertOp line col text).2 = none
    ∧ (ed.insertOp line col text).1.redoStack = []
    ∧ (ed.insertOp line col text).1.undoStack.length = ed.undoStack.length + 1 := by
  by_cases hp : (splitNl text).length = 1 <;>
    simp [TextEditor.insertOp, h1, h2, hp, TextEditor.pushCommand]

/-- `TextEditor.insert` either fails leaving the editor untouched, or
succeeds, clears the redo stack and pushes exactly one command. -/
theorem insertOp_cases (ed : TextEditor) (line col : Nat) (text : Str) :
    ((ed.insertOp line col text).2.isSome = true ∧ (ed.insertOp line col text).1 = ed)
    ∨ ((ed.insertOp line col text).2 = none
        ∧ (ed.insertOp line col text).1.redoStack = []
        ∧ (ed.insertOp line col text).1.undoStack.length = ed.undoStack.length + 1) := by
  by_cases hemp : ed.lines.isEmpty
  · have hnil : ed.lines = [] := by simpa using hemp
    by_cases hc : line = 1 ∧ col = 1
    · obtain ⟨hx, hy⟩ := hc; subst hx; subst hy
      right
      by_cases hp : (splitNl text).length = 1 <;>
        simp [TextEditor.insertOp, hnil, hp, TextEditor.pushCommand, ensurePosition]
    · left
      simp [TextEditor.insertOp, hnil, hc]
  · have hemp' : ed.lines.isEmpty = false := by simpa using hemp
    cases he : ensurePosition ed.lines line col with
    | some e => left; simp [TextEditor.insertOp, hemp', he]
    | none => right; exact insertOp_success ed line col text hemp' he

theorem getLine_append_last (ls : List Str) (x : Str) :
    getLine (ls ++ [x]) ls.length = x := by
  unfold getLine
  induction ls with
  | nil => rfl
  | cons a as ih => simp [ih]

/-- `TextEditor.append` always succeeds: it appends an empty line and inserts
at the line after the old last line, which always validates. -/
theorem appendOp_success (ed : TextEditor) (text : Str) :
    (ed.appendOp text).2 = none
    ∧ (ed.appendOp text).1.redoStack = []
    ∧ (ed.appendOp text).1.undoStack.length = ed.undoStack.length + 1 := by
  have h1 : (ed.lines ++ [[]]).isEmpty = false := by
    cases ed.lines <;> rfl
  have h2 : ensurePosition (ed.lines ++ [([] : Str)]) (ed.lines.length + 1) 1 = none := by
    unfold ensurePosition
    simp only [Nat.add_sub_cancel]
    rw [getLine_append_last]
    simp
  exact insertOp_success _ _ _ text h1 h2

/-- `TextEditor.replace` either fails leaving the editor untouched, or
succeeds with an empty redo stack. -/
theorem replaceOp_cases (ed : TextEditor) (line col len : Nat) (text : Str) :
    ((ed.replaceOp line col len text).2.isSome = true
      ∧ (ed.replaceOp line col len text).1 = ed)
    ∨ ((ed.replaceOp line col len text).2 = none
        ∧ (ed.replaceOp line col len text).1.redoStack = []) := by
  by_cases hemp : ed.lines.isEmpty
  · left; simp [TextEditor.replaceOp, hemp]
  · have hemp' : ed.lines.isEmpty = false := by simpa using hemp
    cases he : ensurePosition ed.lines line col with
    | some e => left; simp [TextEditor.replaceOp, hemp', he]
    | none =>
      obtain ⟨hl1, hl2, hc1, hc4⟩ := ensurePosition_none _ _ _ he
      by_cases hl : (getLine ed.lines (line - 1)).length - (col - 1) < len
      · left; simp [TextEditor.replaceOp, hemp', he, hl]
      · by_cases hnl : ('\n' : Char) ∈ text
        · right
          -- the inner multiline insert runs on the buffer after the deletion
          -- step; show it validates and succeeds
          have hidx : line - 1 < ed.lines.length := by omega
          set delCmd : TextCmd := .delete line col len none with hdc
          set ed1 : TextEditor := { ed with lines := (delCmd.executeCmd ed.lines).1 }
            with hed1
          have hlines1 : ed1.lines
              = ed.lines.set (line - 1)
                  ((getLine ed.lines (line - 1)).take (col - 1)
                    ++ (getLine ed.lines (line - 1)).drop (col - 1 + len)) := rfl
          have hlen1 : ed1.lines.length = ed.lines.length := by
            rw [hlines1]; simp
          have hline1 : getLine ed1.lines (line - 1)
              = (getLine ed.lines (line - 1)).take (col - 1)
                ++ (getLine ed.lines (line - 1)).drop (col - 1 + len) := by
            rw [hlines1]
            unfold getLine
            exact getD_set_self _ _ _ _ hidx
          have h1 : ed1.lines.isEmpty = false := by
            cases hll : ed1.lines with
            | nil =>
              rw [hll] at hlen1
              simp at hlen1
              omega
            | cons a l => rfl
          have h2 : ensurePosition ed1.lines line col = none := by
            unfold ensurePosition
            rw [hlen1, hline1, h1]
            simp only [Bool.false_eq_true, if_false, List.length_append,
              List.length_take, List.length_drop]
            split_ifs <;> first | rfl | (exfalso; omega)
          have hres := insertOp_success ed1 line col text h1 h2
          cases hr : ed1.insertOp line col text with
          | mk ed2 err =>
            rw [hr] at hres
            obtain ⟨he2, hr2, -⟩ := hres
            simp only at he2 hr2
            subst he2
            constructor
            · show (ed.replaceOp line col len text).2 = none
              simp [TextEditor.replaceOp, hemp', he, hl, hnl, ← hed1, ← hdc, hr]
            · show (ed.replaceOp line col len text).1.redoStack = []
              simp [TextEditor.replaceOp, hemp', he, hl, hnl, ← hed1, ← hdc, hr, hr2]
        · right
          simp [TextEditor.replaceOp, hemp', he, hl, hnl, TextEditor.pushCommand]

-- sanity traces
example : (xmlInit.appendChildOp "item" "a" "root" "").2 = none := by decide

example :
    ((xmlInit.appendChildOp "item" "a" "root" "").1.appendChildOp "item" "b" "root" "").2
      = none := by decide

example :
    alookup ((((xmlInit.appendChildOp "item" "a" "root" "").1.appendChildOp
      "item" "b" "root" "").1.deleteOpX "a").1.st.idMap) "a" = none := by decide

example :
    (let ed := ((xmlInit.appendChildOp "item" "a" "root" "").1.appendChildOp
        "item" "b" "root" "").1
     let ed2 := ((ed.deleteOpX "a").1.undoOpX).1
     alookup ed2.st.idMap "a" = alookup ed.st.idMap "a"
     ∧ alookup ed2.st.idMap "b" = alookup ed.st.idMap "b"
     ∧ alookup ed2.st.idMap "root" = alookup ed.st.idMap "root"
     ∧ alookup ed2.st.parentMap 1 = alookup ed.st.parentMap 1
     ∧ alookup ed2.st.parentMap 2 = alookup ed.st.parentMap 2
     ∧ alookup ed2.st.nodes 0 = alookup ed.st.nodes 0
     ∧ (alookup ed2.st.nodes 0).map XElem.children = some [1, 2]) := by decide

example : (xmlInit.editIdOp "root" "root").2 = some .duplicateId := by decide

example : (xmlInit.editIdOp "root" "x").2 = some .rootProtected := by decide

theorem alookup_dset {K V : Type} [DecidableEq K] (m : List (K × V)) (k k' : K) (v : V) :
    alookup (dset m k v) k' = if k' = k then some v else alookup m k' := by
  induction m with
  | nil =>
    by_cases h : k = k'
    · subst h; simp [dset, alookup]
    · simp [dset, alookup, h, Ne.symm h]
  | cons p ps ih =>
    by_cases hp : p.1 = k
    · by_cases h : k' = k
      · subst h; simp [dset, alookup, hp]
      · simp [dset, alookup, hp, h, Ne.symm h]
    · by_cases h : p.1 = k' <;> by_cases h2 : k' = k <;>
        simp_all [dset, alookup]

theorem alookup_ddel {K V : Type} [DecidableEq K] (m : List (K × V)) (k k' : K) :
    alookup (ddel m k) k' = if k' = k then none else alookup m k' := by
  induction m with
  | nil => simp [ddel, alookup]
  | cons p ps ih =>
    by_cases hp : p.1 = k <;> by_cases h : p.1 = k' <;> by_cases h2 : k' = k <;>
      simp_all [ddel, alookup]

theorem alookup_eq_none_iff {K V : Type} [DecidableEq K] (m : List (K × V)) (k : K) :
    alookup m k = none ↔ k ∉ m.map Prod.fst := by
  induction m with
  | nil => simp [alookup]
  | cons p ps ih =>
    by_cases hp : p.1 = k <;> simp_all [alookup, eq_comm]

theorem mem_of_alookup_eq_some {K V : Type} [DecidableEq K]
    {m : List (K × V)} {k : K} {v : V} (h : alookup m k = some v) : (k, v) ∈ m := by
  induction m with
  | nil => simp [alookup] at h
  | cons p ps ih =>
    obtain ⟨p1, p2⟩ := p
    by_cases hp : p1 = k
    · subst hp
      simp only [alookup, if_pos, Option.some.injEq] at h
      rw [← h]
      exact List.mem_cons_self _ _
    · simp only [alookup] at h
      rw [if_neg hp] at h
      exact List.mem_cons_of_mem _ (ih h)

theorem alookup_delKeys (l : List (String × Nat)) (m : List (String × Nat)) (k : String) :
    alookup (delKeys l m) k
      = if k ∈ l.map Prod.fst then none else alookup m k := by
  induction l generalizing m with
  | nil => simp [delKeys]
  | cons p ps ih =>
    simp only [delKeys]
    rw [ih]
    by_cases h : k ∈ ps.map Prod.fst
    · simp [h]
    · by_cases h2 : k = p.1 <;> simp [h, h2, alookup_ddel]

theorem mem_keys_dset {K V : Type} [DecidableEq K] (m : List (K × V)) (k k' : K) (v : V) :
    k' ∈ (dset m k v).map Prod.fst ↔ k' = k ∨ k' ∈ m.map Prod.fst := by
  rw [← not_iff_not]
  push_neg
  rw [← alookup_eq_none_iff, ← alookup_eq_none_iff, alookup_dset]
  by_cases h : k' = k <;> simp [h]

theorem nodupKeys_dset {K V : Type} [DecidableEq K] (m : List (K × V)) (k : K) (v : V)
    (h : NodupKeys m) : NodupKeys (dset m k v) := by
  induction m with
  | nil => simp [dset, NodupKeys]
  | cons p ps ih =>
    unfold NodupKeys at h
    simp only [List.map_cons, List.nodup_cons] at h
    obtain ⟨hp, hps⟩ := h
    by_cases hk : p.1 = k
    · unfold dset NodupKeys
      rw [if_pos hk]
      simp only [List.map_cons, List.nodup_cons]
      exact ⟨by rw [← hk]; exact hp, hps⟩
    · unfold dset NodupKeys
      rw [if_neg hk]
      simp only [List.map_cons, List.nodup_cons]
      constructor
      · rw [List.mem_map]
        rintro ⟨q, hq, hq1⟩
        have := mem_of_alookup_eq_some (m := dset ps k v) (k := q.1) (v := q.2)
        have hqm : q.1 ∈ (dset ps k v).map Prod.fst := List.mem_map_of_mem _ hq
        rw [mem_keys_dset] at hqm
        rcases hqm with h1 | h1
        · exact hk (hq1 ▸ h1 ▸ rfl)
        · exact hp (by rw [← hq1]; exact h1)
      · exact ih hps

theorem alookup_updKeys (l : List (String × Nat)) (m : List (String × Nat)) (k : String)
    (hnd : NodupKeys l) :
    alookup (updKeys l m) k
      = match alookup l k with
        | some v => some v
        | none => alookup m k := by
  induction l generalizing m with
  | nil => simp [updKeys, alookup]
  | cons p ps ih =>
    unfold NodupKeys at hnd
    simp only [List.map_cons, List.nodup_cons] at hnd
    obtain ⟨hp, hps⟩ := hnd
    simp only [updKeys]
    rw [ih _ hps]
    by_cases h : k = p.1
    · subst h
      have hnone : alookup ps p.1 = none := (alookup_eq_none_iff ps p.1).mpr hp
      simp [alookup, hnone, alookup_dset]
    · simp [alookup, Ne.symm h, h, alookup_dset]

theorem mem_dset {K V : Type} [DecidableEq K] {m : List (K × V)} {k : K} {v : V}
    {q : K × V} (h : q ∈ dset m k v) : q = (k, v) ∨ q ∈ m := by
  induction m with
  | nil => simpa [dset] using h
  | cons p ps ih =>
    by_cases hp : p.1 = k
    · rw [dset, if_pos hp] at h
      rcases List.mem_cons.mp h with h1 | h1
      · exact Or.inl h1
      · exact Or.inr (List.mem_cons_of_mem _ h1)
    · rw [dset, if_neg hp] at h
      rcases List.mem_cons.mp h with h1 | h1
      · exact Or.inr (h1 ▸ List.mem_cons_self _ _)
      · rcases ih h1 with h2 | h2
        · exact Or.inl h2
        · exact Or.inr (List.mem_cons_of_mem _ h2)

theorem alookup_removePM (sc : List (Nat × XElem × Nat)) (pm : List (Nat × Nat)) (k : Nat) :
    alookup (removePM sc pm) k
      = if k ∈ sc.map (fun x => x.1) then none else alookup pm k := by
  induction sc generalizing pm with
  | nil => simp [removePM]
  | cons x xs ih =>
    have hstep : alookup (if (alookup pm x.1).isSome then ddel pm x.1 else pm) k
        = if k = x.1 then none else alookup pm k := by
      by_cases hs : (alookup pm x.1).isSome
      · simp [hs, alookup_ddel]
      · rw [if_neg hs]
        by_cases hk : k = x.1
        · subst hk
          rw [if_pos rfl]
          simpa using hs
        · simp [hk]
    simp only [removePM]
    rw [ih, hstep]
    by_cases h1 : k ∈ xs.map (fun y => y.1) <;> by_cases h2 : k = x.1 <;>
      simp [h1, h2]

theorem alookup_restorePM (sc : List (Nat × XElem × Nat)) (pm : List (Nat × Nat)) (k : Nat)
    (hnd : (sc.map (fun x => x.1)).Nodup) :
    alookup (restorePM sc pm) k
      = match alookup (sc.map (fun x => (x.1, x.2.2))) k with
        | some v => some v
        | none => alookup pm k := by
  induction sc generalizing pm with
  | nil => simp [restorePM, alookup]
  | cons x xs ih =>
    simp only [List.map_cons, List.nodup_cons] at hnd
    obtain ⟨hx, hxs⟩ := hnd
    simp only [restorePM]
    rw [ih _ hxs]
    by_cases hk : k = x.1
    · subst hk
      have hnone : alookup (xs.map (fun y => (y.1, y.2.2))) x.1 = none := by
        rw [alookup_eq_none_iff, List.map_map]
        simpa using hx
      simp [alookup, hnone, alookup_dset]
    · simp [alookup, hk, Ne.symm hk, alookup_dset]

theorem nodupKeys_collectAcc (sc : List (Nat × XElem × Nat)) (acc : List (String × Nat))
    (h : NodupKeys acc) : NodupKeys (collectAcc sc acc) := by
  induction sc generalizing acc with
  | nil => exact h
  | cons x xs ih =>
    simp only [collectAcc]
    apply ih
    by_cases hid : x.2.1.idAttr = ""
    · simpa [hid] using h
    · rw [if_pos hid]
      exact nodupKeys_dset _ _ _ h

theorem mem_collectAcc {sc : List (Nat × XElem × Nat)} {acc : List (String × Nat)}
    {q : String × Nat} (h : q ∈ collectAcc sc acc) :
    (∃ x ∈ sc, x.2.1.idAttr = q.1 ∧ q.1 ≠ "" ∧ x.1 = q.2) ∨ q ∈ acc := by
  induction sc generalizing acc with
  | nil => exact Or.inr h
  | cons x xs ih =>
    simp only [collectAcc] at h
    rcases ih h with hin | hacc
    · obtain ⟨y, hy, hy2⟩ := hin
      exact Or.inl ⟨y, List.mem_cons_of_mem _ hy, hy2⟩
    · by_cases hid : x.2.1.idAttr = ""
      · right; simpa [hid] using hacc
      · rw [if_pos hid] at hacc
        rcases mem_dset hacc with h1 | h1
        · left
          refine ⟨x, List.mem_cons_self _ _, ?_, ?_, ?_⟩
          · rw [h1]
          · rw [h1]; exact hid
          · rw [h1]
        · exact Or.inr h1

theorem keys_mono_collectAcc (sc : List (Nat × XElem × Nat)) (acc : List (String × Nat))
    {k : String} (h : k ∈ acc.map Prod.fst) :
    k ∈ (collectAcc sc acc).map Prod.fst := by
  induction sc generalizing acc with
  | nil => exact h
  | cons x xs ih =>
    simp only [collectAcc]
    apply ih
    by_cases hid : x.2.1.idAttr = ""
    · simpa [hid] using h
    · rw [if_pos hid, mem_keys_dset]
      exact Or.inr h

theorem key_complete_collectAcc {sc : List (Nat × XElem × Nat)} {x : Nat × XElem × Nat}
    (hx : x ∈ sc) (hid : x.2.1.idAttr ≠ "") (acc : List (String × Nat)) :
    x.2.1.idAttr ∈ (collectAcc sc acc).map Prod.fst := by
  induction sc generalizing acc with
  | nil => cases hx
  | cons y ys ih =>
    rcases List.mem_cons.mp hx with h1 | h1
    · subst h1
      simp only [collectAcc]
      apply keys_mono_collectAcc
      rw [if_pos hid, mem_keys_dset]
      exact Or.inl rfl
    · exact ih h1 _

theorem length_dset_of_mem {K V : Type} [DecidableEq K] (m : List (K × V)) (k : K) (v : V)
    (h : (alookup m k).isSome) : (dset m k v).length = m.length := by
  induction m with
  | nil => simp [alookup] at h
  | cons p ps ih =>
    by_cases hp : p.1 = k
    · rw [dset, if_pos hp]; rfl
    · rw [alookup, if_neg hp] at h
      rw [dset, if_neg hp]
      simp [ih h]

theorem insertAt_eraseFirst_idxOf (l : List Nat) (x : Nat) (h : x ∈ l) :
    listInsertAt (eraseFirst l x) (idxOf l x) x = l := by
  induction l with
  | nil => cases h
  | cons a as ih =>
    by_cases ha : a = x
    · subst ha; simp [eraseFirst, idxOf, listInsertAt]
    · have h' : x ∈ as := by
        rcases List.mem_cons.mp h with h1 | h1
        · exact absurd h1.symm ha
        · exact h1
      rw [eraseFirst, if_neg ha, idxOf, if_neg ha]
      show listInsertAt (a :: eraseFirst as x) (idxOf as x + 1) x = a :: as
      unfold listInsertAt
      simp only [List.take_succ_cons, List.drop_succ_cons, List.cons_append]
      rw [← listInsertAt, ih h']

theorem subtreeScan_stable (st st' : XmlState) (fuel : Nat) :
    ∀ (wl : List (Nat × Nat)) (sc : List (Nat × XElem × Nat)),
    subtreeScan st fuel wl = some sc →
    (∀ x ∈ sc, alookup st'.nodes x.1 = alookup st.nodes x.1) →
    subtreeScan st' fuel wl = some sc := by
  induction fuel with
  | zero =>
    intro wl sc hs hag
    cases wl with
    | nil => exact hs
    | cons a l => simp [subtreeScan] at hs
  | succ f ih =>
    intro wl sc hs hag
    cases wl with
    | nil => exact hs
    | cons hp rest =>
      obtain ⟨h, par⟩ := hp
      simp only [subtreeScan] at hs ⊢
      cases hl : alookup st.nodes h with
      | none => simp only [hl] at hs; cases hs
      | some e =>
        simp only [hl] at hs
        cases h1 : subtreeScan st f (e.children.map fun c => (c, h)) with
        | none => simp only [h1] at hs; cases hs
        | some sub =>
          simp only [h1] at hs
          cases h2 : subtreeScan st f rest with
          | none => simp only [h2] at hs; cases hs
          | some rts =>
            simp only [h2, Option.some.injEq] at hs
            subst hs
            have hx0 : ((h, e, par) : Nat × XElem × Nat)
                ∈ (h, e, par) :: (sub ++ rts) := List.mem_cons_self _ _
            have hl' : alookup st'.nodes h = some e := by rw [hag _ hx0]; exact hl
            simp only [hl']
            simp only [ih _ _ h1 (fun x hx => hag x (by simp [hx]))]
            simp only [ih _ _ h2 (fun x hx => hag x (by simp [hx]))]

theorem subtreeScan_head (st : XmlState) (fuel : Nat) (h par : Nat)
    (sc : List (Nat × XElem × Nat))
    (hs : subtreeScan st fuel [(h, par)] = some sc) :
    ∃ e tl, alookup st.nodes h = some e ∧ sc = (h, e, par) :: tl := by
  cases fuel with
  | zero => simp [subtreeScan] at hs
  | succ f =>
    simp only [subtreeScan] at hs
    cases hl : alookup st.nodes h with
    | none => simp only [hl] at hs; cases hs
    | some e =>
      simp only [hl] at hs
      cases h1 : subtreeScan st f (e.children.map fun c => (c, h)) with
      | none => simp only [h1] at hs; cases hs
      | some sub =>
        simp only [h1, Option.some.injEq] at hs
        exact ⟨e, sub, rfl, by simpa using hs.symm⟩

/-- Unfolded form of `XmlDeleteCommand.execute` under the editor's
validation guarantees. -/
theorem executeX_delete_eq (eid : String) (st : XmlState) (h par : Nat) (pe : XElem)
    (sc : List (Nat × XElem × Nat))
    (h1 : alookup st.idMap eid = some h)
    (h2 : alookup st.parentMap h = some par)
    (h3 : alookup st.nodes par = some pe)
    (h4 : subtreeScan st (st.nodes.length + 1) [(h, par)] = some sc) :
    (XCmd.delete eid none).executeX st
      = ({ st with
            nodes := dset st.nodes par { pe with children := eraseFirst pe.children h },
            idMap := delKeys (collectAcc sc []) st.idMap,
            parentMap := removePM sc (ddel st.parentMap h) },
         XCmd.delete eid (some ⟨h, par, idxOf pe.children h, collectAcc sc []⟩)) := by
  simp only [XCmd.executeX, h1, h2, h3, h4]

/-- Unfolded form of `XmlDeleteCommand.undo` under the restoration
hypotheses. -/
theorem undoX_delete_eq (eid : String) (snap : XDeleteSnap) (st : XmlState)
    (pe' pe'' : XElem) (sc : List (Nat × XElem × Nat))
    (h1 : alookup st.nodes snap.parent = some pe')
    (h2 : { pe' with children := listInsertAt pe'.children snap.index snap.elem } = pe'')
    (h3 : subtreeScan
        { st with
            nodes := dset st.nodes snap.parent pe'',
            idMap := updKeys snap.subtreeIds st.idMap }
        ((dset st.nodes snap.parent pe'').length + 1) [(snap.elem, snap.parent)]
      = some sc) :
    (XCmd.delete eid (some snap)).undoX st
      = { st with
          nodes := dset st.nodes snap.parent pe'',
          idMap := updKeys snap.subtreeIds st.idMap,
          parentMap := restorePM sc st.parentMap } := by
  simp only [XCmd.undoX, h1, h2, h3]

/-- `undo()` on an editor with a non-empty applied stack. -/
theorem undoOpX_cons (st : XmlState) (c : XCmd) (us rs : List XCmd) (m : Bool) :
    XmlEditor.undoOpX ⟨st, c :: us, rs, m⟩ = (⟨c.undoX st, us, c :: rs, true⟩, true) := rfl

/-- C5: on any tree document whose indexes are consistent with the live
arena on the subtree of a non-root element `h` (hypotheses `hids`, `hpms`,
`hnd`, `hscan`), `delete` removes the element from its parent's child
sequence, purges every identifier of the removed subtree from `idIndex` and
every removed element from `parentIndex`; the following `undo()` reinserts
the subtree at the exact original sibling index and restores the arena and
both indexes to their original contents (pointwise, the equality Python's
`dict ==` uses). -/
theorem C5_delete_undo_restores (ed : XmlEditor) (eid : String) (h par : Nat)
    (pe : XElem) (sc : List (Nat × XElem × Nat))
    (hid : alookup ed.st.idMap eid = some h)
    (hroot : h ≠ ed.st.rootH)
    (hpm : alookup ed.st.parentMap h = some par)
    (hpe : alookup ed.st.nodes par = some pe)
    (hmem : h ∈ pe.children)
    (hscan : subtreeScan ed.st (ed.st.nodes.length + 1) [(h, par)] = some sc)
    (hnd : (sc.map (fun x => x.1)).Nodup)
    (hids : ∀ x ∈ sc, x.2.1.idAttr ≠ "" → alookup ed.st.idMap x.2.1.idAttr = some x.1)
    (hpms : ∀ x ∈ sc, alookup ed.st.parentMap x.1 = some x.2.2) :
    (ed.deleteOpX eid).2 = none
    ∧ alookup (ed.deleteOpX eid).1.st.nodes par
        = some { pe with children := eraseFirst pe.children h }
    ∧ (∀ x ∈ sc, x.2.1.idAttr ≠ "" →
        alookup (ed.deleteOpX eid).1.st.idMap x.2.1.idAttr = none)
    ∧ (∀ x ∈ sc, alookup (ed.deleteOpX eid).1.st.parentMap x.1 = none)
    ∧ ((ed.deleteOpX eid).1.undoOpX).2 = true
    ∧ (∀ k, alookup ((ed.deleteOpX eid).1.undoOpX).1.st.nodes k = alookup ed.st.nodes k)
    ∧ (∀ k, alookup ((ed.deleteOpX eid).1.undoOpX).1.st.idMap k = alookup ed.st.idMap k)
    ∧ (∀ k, alookup ((ed.deleteOpX eid).1.undoOpX).1.st.parentMap k
        = alookup ed.st.parentMap k)
    ∧ ((ed.deleteOpX eid).1.undoOpX).1.st.rootH = ed.st.rootH := by
  obtain ⟨e0, tl, he0, hsc0⟩ := subtreeScan_head _ _ _ _ _ hscan
  have hhs : h ∈ sc.map (fun x => x.1) := by rw [hsc0]; simp
  have hndcol : NodupKeys (collectAcc sc []) :=
    nodupKeys_collectAcc sc [] (by simp [NodupKeys])
  -- the executed command and state
  have hdel : ed.deleteOpX eid
      = ({ ed with
            st := { ed.st with
              nodes := dset ed.st.nodes par
                { pe with children := eraseFirst pe.children h },
              idMap := delKeys (collectAcc sc []) ed.st.idMap,
              parentMap := removePM sc (ddel ed.st.parentMap h) },
            undoStack := XCmd.delete eid
                (some ⟨h, par, idxOf pe.children h, collectAcc sc []⟩)
              :: ed.undoStack,
            redoStack := [],
            modified := true }, none) := by
    simp only [XmlEditor.deleteOpX, hid, if_neg hroot, XmlEditor.pushCommandX,
      executeX_delete_eq eid ed.st h par pe sc hid hpm hpe hscan]
  -- undoing the delete
  have hpe1look :
      alookup (dset ed.st.nodes par { pe with children := eraseFirst pe.children h }) par
        = some { pe with children := eraseFirst pe.children h } := by
    rw [alookup_dset]; simp
  have hins : listInsertAt (eraseFirst pe.children h) (idxOf pe.children h) h
      = pe.children := insertAt_eraseFirst_idxOf _ _ hmem
  have hpe2 :
      ({ { pe with children := eraseFirst pe.children h } with
          children := listInsertAt (eraseFirst pe.children h) (idxOf pe.children h) h }
        : XElem) = pe := by
    rw [hins]
  have hnodes2 : ∀ k,
      alookup (dset (dset ed.st.nodes par
          { pe with children := eraseFirst pe.children h }) par pe) k
        = alookup ed.st.nodes k := by
    intro k
    rw [alookup_dset, alookup_dset]
    by_cases hk : k = par
    · simp [hk, hpe]
    · simp [hk]
  have hlen2 :
      (dset (dset ed.st.nodes par
          { pe with children := eraseFirst pe.children h }) par pe).length
        = ed.st.nodes.length := by
    rw [length_dset_of_mem _ _ _ (by rw [alookup_dset]; simp),
      length_dset_of_mem _ _ _ (by simp [hpe])]
  have hscan2 : subtreeScan
      { { ed.st with
            nodes := dset ed.st.nodes par
              { pe with children := eraseFirst pe.children h },
            idMap := delKeys (collectAcc sc []) ed.st.idMap,
            parentMap := removePM sc (ddel ed.st.parentMap h) } with
          nodes := dset (dset ed.st.nodes par
            { pe with children := eraseFirst pe.children h }) par pe,
          idMap := updKeys (collectAcc sc [])
            (delKeys (collectAcc sc []) ed.st.idMap) }
      ((dset (dset ed.st.nodes par
          { pe with children := eraseFirst pe.children h }) par pe).length + 1)
      [(h, par)] = some sc := by
    rw [hlen2]
    exact subtreeScan_stable ed.st _ _ _ _ hscan (fun x _ => hnodes2 x.1)
  have hux :
      (XCmd.delete eid (some ⟨h, par, idxOf pe.children h, collectAcc sc []⟩)).undoX
        { ed.st with
            nodes := dset ed.st.nodes par
              { pe with children := eraseFirst pe.children h },
            idMap := delKeys (collectAcc sc []) ed.st.idMap,
            parentMap := removePM sc (ddel ed.st.parentMap h) }
      = { ed.st with
          nodes := dset (dset ed.st.nodes par
            { pe with children := eraseFirst pe.children h }) par pe,
          idMap := updKeys (collectAcc sc [])
            (delKeys (collectAcc sc []) ed.st.idMap),
          parentMap := restorePM sc (removePM sc (ddel ed.st.parentMap h)) } := by
    exact undoX_delete_eq eid _ _ _ pe sc hpe1look hpe2 hscan2
  -- pointwise restoration of the two indexes
  have hid7 : ∀ k, alookup (updKeys (collectAcc sc [])
      (delKeys (collectAcc sc []) ed.st.idMap)) k = alookup ed.st.idMap k := by
    intro k
    rw [alookup_updKeys _ _ _ hndcol]
    cases hc : alookup (collectAcc sc []) k with
    | some v =>
      simp only [hc]
      rcases mem_collectAcc (mem_of_alookup_eq_some hc) with ⟨x, hx, hxa, hxne, hxv⟩ | habs
      · have hv := hids x hx (by rw [hxa]; exact hxne)
        rw [hxa, hxv] at hv
        exact hv.symm
      · cases habs
    | none =>
      simp only [hc]
      rw [alookup_delKeys, if_neg ((alookup_eq_none_iff _ _).mp hc)]
  have hpm8 : ∀ k, alookup (restorePM sc (removePM sc (ddel ed.st.parentMap h))) k
      = alookup ed.st.parentMap k := by
    intro k
    rw [alookup_restorePM _ _ _ hnd]
    cases hc : alookup (sc.map fun x => (x.1, x.2.2)) k with
    | some v =>
      simp only [hc]
      obtain ⟨x, hx, hxe⟩ := List.mem_map.mp (mem_of_alookup_eq_some hc)
      have hx1 : x.1 = k := congrArg Prod.fst hxe
      have hx2 : x.2.2 = v := congrArg (fun q => q.2) hxe
      have hv := hpms x hx
      rw [hx1, hx2] at hv
      exact hv.symm
    | none =>
      simp only [hc]
      have hknot : k ∉ sc.map (fun x => x.1) := by
        have hc' := (alookup_eq_none_iff _ _).mp hc
        rw [List.map_map] at hc'
        simpa using hc'
      rw [alookup_removePM, if_neg hknot, alookup_ddel,
        if_neg (fun hkh => hknot (by rw [hkh]; exact hhs))]
  -- assemble
  rw [hdel]
  refine ⟨rfl, ?_, ?_, ?_, ?_, ?_, ?_, ?_, ?_⟩
  · exact hpe1look
  · intro x hx hxne
    show alookup (delKeys (collectAcc sc []) ed.st.idMap) x.2.1.idAttr = none
    rw [alookup_delKeys, if_pos (key_complete_collectAcc hx hxne [])]
  · intro x hx
    show alookup (removePM sc (ddel ed.st.parentMap h)) x.1 = none
    rw [alookup_removePM, if_pos (List.mem_map_of_mem _ hx)]
  · rw [undoOpX_cons]
  · intro k
    rw [undoOpX_cons]
    show alookup ((XCmd.delete eid _).undoX _).nodes k = _
    rw [hux]
    exact hnodes2 k
  · intro k
    rw [undoOpX_cons]
    show alookup ((XCmd.delete eid _).undoX _).idMap k = _
    rw [hux]
    exact hid7 k
  · intro k
    rw [undoOpX_cons]
    show alookup ((XCmd.delete eid _).undoX _).parentMap k = _
    rw [hux]
    exact hpm8 k
  · rw [undoOpX_cons]
    show ((XCmd.delete eid _).undoX _).rootH = ed.st.rootH
    rw [hux]

/-- C5 witness: in the scenario, `delete("a")` succeeds and purges `idIndex["a"]`,
and `undo()` restores `a` as the first child of the root (children `[1, 2]`
again, handle 1 being `a`) with `idIndex["a"]` resolvable again. -/
theorem C5_delete_undo_restores_witness :
    (xmlScenario.deleteOpX "a").2 = none
    ∧ alookup (xmlScenario.deleteOpX "a").1.st.idMap "a" = none
    ∧ alookup ((xmlScenario.deleteOpX "a").1.undoOpX).1.st.idMap "a" = some 1
    ∧ alookup ((xmlScenario.deleteOpX "a").1.undoOpX).1.st.nodes 0
        = some ⟨"root", "root", none, [1, 2]⟩ := by
  have hmain := C5_delete_undo_restores xmlScenario "a" 1 0
    ⟨"root", "root", none, [1, 2]⟩ [(1, ⟨"item", "a", none, []⟩, 0)]
    rfl (by decide) rfl rfl (by decide) rfl (by decide) (by decide) (by decide)
  refine ⟨hmain.1, ?_, ?_, ?_⟩
  · exact hmain.2.2.1 (1, ⟨"item", "a", none, []⟩, 0) (by decide) (by decide)
  · exact (hmain.2.2.2.2.2.2.1 "a").trans rfl
  · exact (hmain.2.2.2.2.2.1 0).trans rfl

/-- C10 counterexample: the claim says `editId(rootId, anyNewId)` fails with
`RootElementProtected`, but for a `newId` that already exists the duplicate
check fires first: `editId("root", "root")` on a fresh document fails with
`DuplicateId` (the state is still unchanged). -/
theorem C10_editId_existing_newId_counterexample :
    (xmlInit.editIdOp "root" "root").2 = some XmlErr.duplicateId
    ∧ some XmlErr.duplicateId ≠ some XmlErr.rootProtected
    ∧ (xmlInit.editIdOp "root" "root").1 = xmlInit := by decide

/-- C10 (amended): the root is protected by every addressing operation:
`delete(rootId)` fails with `RootElementProtected`; `editId(rootId, newId)`
fails — with `RootElementProtected` when `newId` is fresh and with
`DuplicateId` when `newId` already exists; `insertBefore` with the root as
target fails — and in every case the editor is unchanged, with `idIndex`
still containing the root's id. -/
theorem C10_root_protected (ed : XmlEditor) (rid nid tag txt : String)
    (hr : alookup ed.st.idMap rid = some ed.st.rootH) :
    ed.deleteOpX rid = (ed, some .rootProtected)
    ∧ ((alookup ed.st.idMap nid).isSome = false →
        ed.editIdOp rid nid = (ed, some .rootProtected))
    ∧ ((alookup ed.st.idMap nid).isSome = true →
        ed.editIdOp rid nid = (ed, some .duplicateId))
    ∧ (ed.insertBeforeOp tag nid rid txt).1 = ed
    ∧ (ed.insertBeforeOp tag nid rid txt).2.isSome = true
    ∧ alookup ed.st.idMap rid = some ed.st.rootH := by
  refine ⟨?_, ?_, ?_, ?_, ?_, hr⟩
  · simp [XmlEditor.deleteOpX, hr]
  · intro hn
    simp [XmlEditor.editIdOp, hr, hn]
  · intro hn
    simp [XmlEditor.editIdOp, hr, hn]
  · by_cases hn : (alookup ed.st.idMap nid).isSome <;>
      simp [XmlEditor.insertBeforeOp, hr, hn]
  · by_cases hn : (alookup ed.st.idMap nid).isSome <;>
      simp [XmlEditor.insertBeforeOp, hr, hn]

/-- C10 witness: on the fresh document, `delete("root")` and
`editId("root", "x")` fail with `RootElementProtected`, `editId("root",
"root")` fails with `DuplicateId`, and `insertBefore` targeting the root
fails — all leaving the editor unchanged. -/
theorem C10_root_protected_witness :
    xmlInit.deleteOpX "root" = (xmlInit, some .rootProtected)
    ∧ xmlInit.editIdOp "root" "x" = (xmlInit, some .rootProtected)
    ∧ xmlInit.editIdOp "root" "root" = (xmlInit, some .duplicateId)
    ∧ (xmlInit.insertBeforeOp "note" "c" "root" "hi").1 = xmlInit
    ∧ (xmlInit.insertBeforeOp "note" "c" "root" "hi").2.isSome = true := by
  have h1 := C10_root_protected xmlInit "root" "x" "note" "hi" rfl
  have h2 := C10_root_protected xmlInit "root" "root" "note" "hi" rfl
  exact ⟨h1.1, h1.2.1 rfl, h2.2.2.1 rfl, h1.2.2.2.1, h1.2.2.2.2.1⟩

/-- `insert_before` either fails leaving the editor untouched or succeeds
with an empty redo stack and one new applied command. -/
theorem insertBeforeOp_cases (ed : XmlEditor) (tag nid tid txt : String) :
    ((ed.insertBeforeOp tag nid tid txt).2.isSome = true
      ∧ (ed.insertBeforeOp tag nid tid txt).1 = ed)
    ∨ ((ed.insertBeforeOp tag nid tid txt).2 = none
        ∧ (ed.insertBeforeOp tag nid tid txt).1.redoStack = []
        ∧ (ed.insertBeforeOp tag nid tid txt).1.undoStack.length
            = ed.undoStack.length + 1) := by
  by_cases hd : (alookup ed.st.idMap nid).isSome
  · left; simp [XmlEditor.insertBeforeOp, hd]
  · cases ht : alookup ed.st.idMap tid with
    | none => left; simp [XmlEditor.insertBeforeOp, hd, ht]
    | some tgt =>
      by_cases hr : tgt = ed.st.rootH
      · left; simp [XmlEditor.insertBeforeOp, hd, ht, hr]
      · right; simp [XmlEditor.insertBeforeOp, hd, ht, hr, XmlEditor.pushCommandX]

/-- `append_child`: same dichotomy. -/
theorem appendChildOp_cases (ed : XmlEditor) (tag nid pid txt : String) :
    ((ed.appendChildOp tag nid pid txt).2.isSome = true
      ∧ (ed.appendChildOp tag nid pid txt).1 = ed)
    ∨ ((ed.appendChildOp tag nid pid txt).2 = none
        ∧ (ed.appendChildOp tag nid pid txt).1.redoStack = []
        ∧ (ed.appendChildOp tag nid pid txt).1.undoStack.length
            = ed.undoStack.length + 1) := by
  by_cases hd : (alookup ed.st.idMap nid).isSome
  · left; simp [XmlEditor.appendChildOp, hd]
  · cases hp : alookup ed.st.idMap pid with
    | none => left; simp [XmlEditor.appendChildOp, hd, hp]
    | some par => right; simp [XmlEditor.appendChildOp, hd, hp, XmlEditor.pushCommandX]

/-- `edit_id`: same dichotomy. -/
theorem editIdOp_cases (ed : XmlEditor) (oldId newId : String) :
    ((ed.editIdOp oldId newId).2.isSome = true ∧ (ed.editIdOp oldId newId).1 = ed)
    ∨ ((ed.editIdOp oldId newId).2 = none
        ∧ (ed.editIdOp oldId newId).1.redoStack = []
        ∧ (ed.editIdOp oldId newId).1.undoStack.length = ed.undoStack.length + 1) := by
  cases ho : alookup ed.st.idMap oldId with
  | none => left; simp [XmlEditor.editIdOp, ho]
  | some h =>
    by_cases hd : (alookup ed.st.idMap newId).isSome
    · left; simp [XmlEditor.editIdOp, ho, hd]
    · by_cases hr : h = ed.st.rootH
      · left; simp [XmlEditor.editIdOp, ho, hd, hr]
      · right; simp [XmlEditor.editIdOp, ho, hd, hr, XmlEditor.pushCommandX]

/-- `edit_text`: same dichotomy. -/
theorem editTextOp_cases (ed : XmlEditor) (elementId txt : String) :
    ((ed.editTextOp elementId txt).2.isSome = true ∧ (ed.editTextOp elementId txt).1 = ed)
    ∨ ((ed.editTextOp elementId txt).2 = none
        ∧ (ed.editTextOp elementId txt).1.redoStack = []
        ∧ (ed.editTextOp elementId txt).1.undoStack.length
            = ed.undoStack.length + 1) := by
  cases ho : alookup ed.st.idMap elementId with
  | none => left; simp [XmlEditor.editTextOp, ho]
  | some h => right; simp [XmlEditor.editTextOp, ho, XmlEditor.pushCommandX]

/-- tree `delete`: same dichotomy. -/
theorem deleteOpX_cases (ed : XmlEditor) (elementId : String) :
    ((ed.deleteOpX elementId).2.isSome = true ∧ (ed.deleteOpX elementId).1 = ed)
    ∨ ((ed.deleteOpX elementId).2 = none
        ∧ (ed.deleteOpX elementId).1.redoStack = []
        ∧ (ed.deleteOpX elementId).1.undoStack.length = ed.undoStack.length + 1) := by
  cases ho : alookup ed.st.idMap elementId with
  | none => left; simp [XmlEditor.deleteOpX, ho]
  | some h =>
    by_cases hr : h = ed.st.rootH
    · left; simp [XmlEditor.deleteOpX, ho, hr]
    · right; simp [XmlEditor.deleteOpX, ho, hr, XmlEditor.pushCommandX]

/-- C6: every validation failure of every operation, on either document
kind, leaves the editor byte-for-byte unchanged — the line buffer or the
arena, both indexes, and both history stacks are exactly as before the
call (validation happens strictly before any mutation). -/
theorem C6_failed_validation_changes_nothing :
    (∀ (ed : TextEditor) (l c : Nat) (t : Str) e,
      (ed.insertOp l c t).2 = some e → (ed.insertOp l c t).1 = ed)
    ∧ (∀ (ed : TextEditor) (l c n : Nat) e,
      (ed.deleteOp l c n).2 = some e → (ed.deleteOp l c n).1 = ed)
    ∧ (∀ (ed : TextEditor) (l c n : Nat) (t : Str) e,
      (ed.replaceOp l c n t).2 = some e → (ed.replaceOp l c n t).1 = ed)
    ∧ (∀ (ed : TextEditor) (t : Str) e,
      (ed.appendOp t).2 = some e → (ed.appendOp t).1 = ed)
    ∧ (∀ (ed : XmlEditor) (tag nid tid txt : String) e,
      (ed.insertBeforeOp tag nid tid txt).2 = some e
        → (ed.insertBeforeOp tag nid tid txt).1 = ed)
    ∧ (∀ (ed : XmlEditor) (tag nid pid txt : String) e,
      (ed.appendChildOp tag nid pid txt).2 = some e
        → (ed.appendChildOp tag nid pid txt).1 = ed)
    ∧ (∀ (ed : XmlEditor) (oldId newId : String) e,
      (ed.editIdOp oldId newId).2 = some e → (ed.editIdOp oldId newId).1 = ed)
    ∧ (∀ (ed : XmlEditor) (elementId txt : String) e,
      (ed.editTextOp elementId txt).2 = some e → (ed.editTextOp elementId txt).1 = ed)
    ∧ (∀ (ed : XmlEditor) (elementId : String) e,
      (ed.deleteOpX elementId).2 = some e → (ed.deleteOpX elementId).1 = ed) := by
  refine ⟨?_, ?_, ?_, ?_, ?_, ?_, ?_, ?_, ?_⟩
  · intro ed l c t e he
    rcases insertOp_cases ed l c t with ⟨-, h⟩ | ⟨h, -⟩
    · exact h
    · rw [he] at h; cases h
  · intro ed l c n e he
    rcases deleteOp_spec ed l c n with ⟨-, hd⟩ | ⟨e', -, -, hd⟩ | ⟨-, -, -, hd⟩ | ⟨-, -, -, hd⟩
    · rw [hd]
    · rw [hd]
    · rw [hd]
    · rw [hd] at he; cases he
  · intro ed l c n t e he
    rcases replaceOp_cases ed l c n t with ⟨-, h⟩ | ⟨h, -⟩
    · exact h
    · rw [he] at h; cases h
  · intro ed t e he
    have h := (appendOp_success ed t).1
    rw [he] at h; cases h
  · intro ed tag nid tid txt e he
    rcases insertBeforeOp_cases ed tag nid tid txt with ⟨-, h⟩ | ⟨h, -⟩
    · exact h
    · rw [he] at h; cases h
  · intro ed tag nid pid txt e he
    rcases appendChildOp_cases ed tag nid pid txt with ⟨-, h⟩ | ⟨h, -⟩
    · exact h
    · rw [he] at h; cases h
  · intro ed oldId newId e he
    rcases editIdOp_cases ed oldId newId with ⟨-, h⟩ | ⟨h, -⟩
    · exact h
    · rw [he] at h; cases h
  · intro ed elementId txt e he
    rcases editTextOp_cases ed elementId txt with ⟨-, h⟩ | ⟨h, -⟩
    · exact h
    · rw [he] at h; cases h
  · intro ed elementId e he
    rcases deleteOpX_cases ed elementId with ⟨-, h⟩ | ⟨h, -⟩
    · exact h
    · rw [he] at h; cases h

/-- C6 witness: two concrete failed calls, one per document kind, leave the
editors unchanged. -/
theorem C6_failed_validation_changes_nothing_witness :
    ((mkText [strOf "abc"]).deleteOp 1 1 5).2 = some TextErr.lengthExceedsLine
    ∧ ((mkText [strOf "abc"]).deleteOp 1 1 5).1 = mkText [strOf "abc"]
    ∧ (xmlInit.editIdOp "root" "x").2 = some XmlErr.rootProtected
    ∧ (xmlInit.editIdOp "root" "x").1 = xmlInit := by
  refine ⟨by decide, ?_, by decide, ?_⟩
  · exact C6_failed_validation_changes_nothing.2.1 (mkText [strOf "abc"]) 1 1 5
      TextErr.lengthExceedsLine (by decide)
  · exact C6_failed_validation_changes_nothing.2.2.2.2.2.2.1 xmlInit "root" "x"
      XmlErr.rootProtected (by decide)

theorem redoOp_of_empty (ed : TextEditor) (h : ed.redoStack = []) :
    ed.redoOp = (ed, false) := by
  unfold TextEditor.redoOp
  rw [h]

theorem redoOpX_of_empty (ed : XmlEditor) (h : ed.redoStack = []) :
    ed.redoOpX = (ed, false) := by
  unfold XmlEditor.redoOpX
  rw [h]

/-- C7: every successful mutating operation, on either document kind, leaves
the reverted stack empty — so an immediately following `redo()` reports
failure and changes nothing, until the next undo. -/
theorem C7_success_clears_redo :
    (∀ (ed : TextEditor) (l c : Nat) (t : Str), (ed.insertOp l c t).2 = none →
      (ed.insertOp l c t).1.redoStack = []
      ∧ (ed.insertOp l c t).1.redoOp = ((ed.insertOp l c t).1, false))
    ∧ (∀ (ed : TextEditor) (l c n : Nat), (ed.deleteOp l c n).2 = none →
      (ed.deleteOp l c n).1.redoStack = []
      ∧ (ed.deleteOp l c n).1.redoOp = ((ed.deleteOp l c n).1, false))
    ∧ (∀ (ed : TextEditor) (l c n : Nat) (t : Str), (ed.replaceOp l c n t).2 = none →
      (ed.replaceOp l c n t).1.redoStack = []
      ∧ (ed.replaceOp l c n t).1.redoOp = ((ed.replaceOp l c n t).1, false))
    ∧ (∀ (ed : TextEditor) (t : Str),
      (ed.appendOp t).1.redoStack = []
      ∧ (ed.appendOp t).1.redoOp = ((ed.appendOp t).1, false))
    ∧ (∀ (ed : XmlEditor) (tag nid tid txt : String),
      (ed.insertBeforeOp tag nid tid txt).2 = none →
      (ed.insertBeforeOp tag nid tid txt).1.redoStack = []
      ∧ (ed.insertBeforeOp tag nid tid txt).1.redoOpX
          = ((ed.insertBeforeOp tag nid tid txt).1, false))
    ∧ (∀ (ed : XmlEditor) (tag nid pid txt : String),
      (ed.appendChildOp tag nid pid txt).2 = none →
      (ed.appendChildOp tag nid pid txt).1.redoStack = []
      ∧ (ed.appendChildOp tag nid pid txt).1.redoOpX
          = ((ed.appendChildOp tag nid pid txt).1, false))
    ∧ (∀ (ed : XmlEditor) (oldId newId : String), (ed.editIdOp oldId newId).2 = none →
      (ed.editIdOp oldId newId).1.redoStack = []
      ∧ (ed.editIdOp oldId newId).1.redoOpX = ((ed.editIdOp oldId newId).1, false))
    ∧ (∀ (ed : XmlEditor) (elementId txt : String), (ed.editTextOp elementId txt).2 = none →
      (ed.editTextOp elementId txt).1.redoStack = []
      ∧ (ed.editTextOp elementId txt).1.redoOpX = ((ed.editTextOp elementId txt).1, false))
    ∧ (∀ (ed : XmlEditor) (elementId : String), (ed.deleteOpX elementId).2 = none →
      (ed.deleteOpX elementId).1.redoStack = []
      ∧ (ed.deleteOpX elementId).1.redoOpX = ((ed.deleteOpX elementId).1, false)) := by
  refine ⟨?_, ?_, ?_, ?_, ?_, ?_, ?_, ?_, ?_⟩
  · intro ed l c t he
    rcases insertOp_cases ed l c t with ⟨hs, -⟩ | ⟨-, hr, -⟩
    · rw [he] at hs; cases hs
    · exact ⟨hr, redoOp_of_empty _ hr⟩
  · intro ed l c n he
    rcases deleteOp_spec ed l c n with ⟨-, hd⟩ | ⟨e', -, -, hd⟩ | ⟨-, -, -, hd⟩ | ⟨-, -, -, hd⟩
    · rw [hd] at he; cases he
    · rw [hd] at he; cases he
    · rw [hd] at he; cases he
    · have hr : (ed.deleteOp l c n).1.redoStack = [] := by
        rw [hd]; rfl
      exact ⟨hr, redoOp_of_empty _ hr⟩
  · intro ed l c n t he
    rcases replaceOp_cases ed l c n t with ⟨hs, -⟩ | ⟨-, hr⟩
    · rw [he] at hs; cases hs
    · exact ⟨hr, redoOp_of_empty _ hr⟩
  · intro ed t
    have hr := (appendOp_success ed t).2.1
    exact ⟨hr, redoOp_of_empty _ hr⟩
  · intro ed tag nid tid txt he
    rcases insertBeforeOp_cases ed tag nid tid txt with ⟨hs, -⟩ | ⟨-, hr, -⟩
    · rw [he] at hs; cases hs
    · exact ⟨hr, redoOpX_of_empty _ hr⟩
  · intro ed tag nid pid txt he
    rcases appendChildOp_cases ed tag nid pid txt with ⟨hs, -⟩ | ⟨-, hr, -⟩
    · rw [he] at hs; cases hs
    · exact ⟨hr, redoOpX_of_empty _ hr⟩
  · intro ed oldId newId he
    rcases editIdOp_cases ed oldId newId with ⟨hs, -⟩ | ⟨-, hr, -⟩
    · rw [he] at hs; cases hs
    · exact ⟨hr, redoOpX_of_empty _ hr⟩
  · intro ed elementId txt he
    rcases editTextOp_cases ed elementId txt with ⟨hs, -⟩ | ⟨-, hr, -⟩
    · rw [he] at hs; cases hs
    · exact ⟨hr, redoOpX_of_empty _ hr⟩
  · intro ed elementId he
    rcases deleteOpX_cases ed elementId with ⟨hs, -⟩ | ⟨-, hr, -⟩
    · rw [he] at hs; cases hs
    · exact ⟨hr, redoOpX_of_empty _ hr⟩

/-- C7 witness: after undoing an insert and then performing a new insert,
the redo stack is empty and `redo()` fails — concretely, on `["x"]` after
insert, undo, insert. -/
theorem C7_success_clears_redo_witness :
    (let ed1 := (((mkText [strOf "x"]).insertOp 1 1 (strOf "a")).1.undoOp).1
     ed1.redoStack ≠ [] ∧ (ed1.insertOp 1 1 (strOf "b")).2 = none
     ∧ (ed1.insertOp 1 1 (strOf "b")).1.redoStack = []
     ∧ (ed1.insertOp 1 1 (strOf "b")).1.redoOp
        = ((ed1.insertOp 1 1 (strOf "b")).1, false)) := by
  refine ⟨by decide, by decide, ?_, ?_⟩
  · exact (C7_success_clears_redo.1 _ 1 1 (strOf "b") (by decide)).1
  · exact (C7_success_clears_redo.1 _ 1 1 (strOf "b") (by decide)).2
